import Mathlib

/-!
Verification development for the MechatronicsDashboard repository
(`src/app.py`, a spreadsheet-backed Streamlit dashboard).

The data-engine layer of `app.py` is shallowly embedded here:

* Python strings are modelled as lists of Unicode code points (`PyStr`),
  with the ASCII semantics of `str.strip`, `str.title`, `str.lower`,
  `str.upper` spelled out on code points.
* pandas DataFrames are modelled column-orientedly (`Table`): a list of
  (column-name, cells) pairs, every cell a string (the code applies
  `.astype(str)` before all the text operations in question).
* the functions `clean`, `get_col`, `natural_sort_key`, the sheet
  discovery in `load_data`, the search masks (`str.contains` with its
  default regex interpretation, restricted to the literal/`.` fragment),
  and the Project-Explorer BOM join are each translated from the source.
-/

namespace MechDash

/-- Python strings as lists of code points. -/
abbrev PyStr := List Nat

/-- Embed a Lean string literal as a `PyStr`. -/
def pyN (s : String) : PyStr := s.data.map Char.toNat

/-- `str.lower` on one code point (ASCII range, as exercised by the data). -/
def toLowerN (n : Nat) : Nat := if 65 ≤ n ∧ n ≤ 90 then n + 32 else n

/-- `str.upper` on one code point (ASCII range). -/
def toUpperN (n : Nat) : Nat := if 97 ≤ n ∧ n ≤ 122 then n - 32 else n

/-- A cased character (ASCII letter), as used by `str.title` word boundaries. -/
def isCasedN (n : Nat) : Bool := decide ((65 ≤ n ∧ n ≤ 90) ∨ (97 ≤ n ∧ n ≤ 122))

/-- Whitespace stripped by `str.strip()` (ASCII whitespace and the
C0/NEL whitespace code points recognised by `str.isspace`). -/
def isSpaceN (n : Nat) : Bool := decide ((9 ≤ n ∧ n ≤ 13) ∨ (28 ≤ n ∧ n ≤ 32) ∨ n = 133)

/-- ASCII decimal digit, the `[0-9]` of the `re.split` pattern. -/
def isDigitN (n : Nat) : Bool := decide (48 ≤ n ∧ n ≤ 57)

/-- `str.lower` on a whole string. -/
def lowerP (s : PyStr) : PyStr := s.map toLowerN

/-- `str.strip()`: drop leading and trailing whitespace. -/
def pyStrip (s : PyStr) : PyStr :=
  ((s.dropWhile isSpaceN).reverse.dropWhile isSpaceN).reverse

/-- One character of `str.title()`: a cased character is uppercased at a
word start (previous character not cased) and lowercased otherwise;
uncased characters pass through. -/
def titleChar (prevCased : Bool) (n : Nat) : Nat :=
  if isCasedN n then (if prevCased then toLowerN n else toUpperN n) else n

/-- `str.title()` scanning with the previous character's casedness. -/
def titleAux : Bool → PyStr → PyStr
  | _, [] => []
  | b, c :: cs => titleChar b c :: titleAux (isCasedN c) cs

/-- `str.title()`. -/
def pyTitle (s : PyStr) : PyStr := titleAux false s

/-- `.replace({"Nan": "Unknown", "nan": "Unknown", "None": "Unknown"})`,
an exact full-value substitution (app.py line 74). -/
def replacePlaceholders (s : PyStr) : PyStr :=
  if s = pyN "Nan" ∨ s = pyN "nan" ∨ s = pyN "None" then pyN "Unknown" else s

/-- The per-cell text normalisation of `clean` (app.py lines 73-74):
`.astype(str).str.strip().str.title()` followed by the placeholder
substitution. -/
def cleanCell (s : PyStr) : PyStr := replacePlaceholders (pyTitle (pyStrip s))

/-- The `brand_map` dictionary of `clean` (app.py lines 76-82). -/
def brand_map : List (PyStr × PyStr) :=
  [ (pyN "Dfrobot", pyN "DFRobot"), (pyN "Dfr", pyN "DFRobot"),
    (pyN "Adafruit", pyN "Adafruit"), (pyN "Pololu", pyN "Pololu"),
    (pyN "Sparkfun", pyN "SparkFun"), (pyN "Arduino", pyN "Arduino"),
    (pyN "Espressif", pyN "Espressif"), (pyN "Seeed", pyN "Seeed Studio"),
    (pyN "Stmicroelectronics", pyN "STMicroelectronics") ]

/-- `df[c].replace(brand_map)`: exact-match dictionary substitution on one cell. -/
def brandReplace (s : PyStr) : PyStr :=
  match brand_map.lookup s with
  | some c => c
  | none => s

/-- Python's substring test `needle in hay`. -/
def containsSub : PyStr → PyStr → Bool
  | needle, [] => needle.isEmpty
  | needle, c :: cs => needle.isPrefixOf (c :: cs) || containsSub needle cs

/-- `"link" in col.lower()` (app.py line 72): hyperlink columns are skipped
by the text normalisation. -/
def isLinkCol (name : PyStr) : Bool := containsSub (pyN "link") (lowerP name)

/-- `c.lower() in ["mfg", "manufacturer", "brand"]` (app.py line 84). -/
def isBrandCol (name : PyStr) : Bool :=
  decide (lowerP name = pyN "mfg" ∨ lowerP name = pyN "manufacturer" ∨
    lowerP name = pyN "brand")

/-- A DataFrame column: header and cells (all cells strings, per `.astype(str)`). -/
abbrev Column := PyStr × List PyStr

/-- A DataFrame, column-oriented. -/
abbrev Table := List Column

/-- `df.empty` for a rectangular frame: no columns, or zero rows. -/
def dfEmpty (t : Table) : Bool := t.all (fun c => c.2.isEmpty)

/-- The effect of `clean` on one column: the text normalisation on
non-link object columns, then the brand substitution on columns named
(case-insensitively) mfg/manufacturer/brand. -/
def cleanColumn (name : PyStr) (cells : List PyStr) : List PyStr :=
  let cells1 := if isLinkCol name then cells else cells.map cleanCell
  if isBrandCol name then cells1.map brandReplace else cells1

/-- `clean(df)` (app.py lines 69-86). -/
def clean (t : Table) : Table :=
  if dfEmpty t then t else t.map (fun c => (c.1, cleanColumn c.1 c.2))

/-- `get_col(df, candidates)` (app.py lines 101-106): `None`/empty frames
resolve to `None`; otherwise a lower-cased column dictionary is built
(later columns overwrite earlier ones on a lower-case collision, as in
the Python dict comprehension) and the first candidate present in it, in
candidate order, returns the recorded actual column name. -/
def get_col (t : Table) (candidates : List PyStr) : Option PyStr :=
  if dfEmpty t then none
  else
    let colMap := (t.map (fun c => (lowerP c.1, c.1))).reverse
    candidates.findSome? (fun cand => colMap.lookup (lowerP cand))

/-! ### Natural sort key (app.py lines 108-109) -/

/-- One step of rebuilding `re.split('([0-9]+)', s)` from the right: pieces
alternate (possibly empty) non-digit text runs with non-empty digit runs,
starting and ending with a text run; a digit character extends the digit
run that follows an empty leading text piece, otherwise it opens a fresh
digit run; a non-digit character extends the leading text piece. -/
def splitStep (c : Nat) (pieces : List PyStr) : List PyStr :=
  if isDigitN c then
    match pieces with
    | [] :: d :: rest => [] :: (c :: d) :: rest
    | _ => [] :: [c] :: pieces
  else
    match pieces with
    | t :: rest => (c :: t) :: rest
    | [] => [[c]]

/-- `re.split('([0-9]+)', str(s))`: alternating maximal non-digit / digit
runs, with the capture groups kept, so the result starts and ends with a
(possibly empty) non-digit piece. -/
def splitRuns (s : PyStr) : List PyStr := s.foldr splitStep [[]]

/-- Code points Python's Unicode-aware `str.isdigit` counts as digits, on
the alphabet exercised here: the ASCII digits, the superscript digits
¹ ² ³ (digits but not decimal, so `int()` rejects them) and the
Arabic-Indic digits ٠-٩ (decimal). None of the non-ASCII ones are
matched by the `[0-9]` split pattern. -/
def pyIsDigitChar (n : Nat) : Bool :=
  decide ((48 ≤ n ∧ n ≤ 57) ∨ n = 178 ∨ n = 179 ∨ n = 185 ∨ (1632 ≤ n ∧ n ≤ 1641))

/-- Code points `int()` accepts (Unicode decimal digits), same alphabet. -/
def pyIsDecimalChar (n : Nat) : Bool :=
  decide ((48 ≤ n ∧ n ≤ 57) ∨ (1632 ≤ n ∧ n ≤ 1641))

/-- Decimal value of a digit code point. -/
def digitValN (n : Nat) : Nat :=
  if 48 ≤ n ∧ n ≤ 57 then n - 48
  else if 1632 ≤ n ∧ n ≤ 1641 then n - 1632
  else 0

/-- `int(text)` on a decimal-digit run. -/
def natVal (p : PyStr) : Nat := p.foldl (fun a c => a * 10 + digitValN c) 0

/-- One element of the Python sort key: `int(text)` for digit runs,
`text.lower()` for the rest. -/
inductive KeyElem
  | str (s : PyStr)
  | num (n : Nat)
deriving DecidableEq

/-- `int(text) if text.isdigit() else text.lower()` for one piece:
`str.isdigit` is true for a non-empty piece of Unicode digit characters
(which the ASCII `[0-9]` split does not isolate), and `int()` raises
`ValueError` — modelled as `none` — on a digit piece that is not all
decimal, such as "²". -/
def pieceKey (p : PyStr) : Option KeyElem :=
  if !p.isEmpty && p.all pyIsDigitChar then
    if p.all pyIsDecimalChar then some (.num (natVal p)) else none
  else some (.str (lowerP p))

/-- Left-to-right traversal of the pieces; the first raised `ValueError`
aborts the key computation, as in the Python list comprehension. -/
def mapOption (f : PyStr → Option KeyElem) : List PyStr → Option (List KeyElem)
  | [] => some []
  | p :: ps =>
    match f p, mapOption f ps with
    | some k, some ks => some (k :: ks)
    | _, _ => none

/-- `natural_sort_key(s)` (app.py lines 108-109); `none` models the key
function raising. -/
def natural_sort_key (s : PyStr) : Option (List KeyElem) :=
  mapOption pieceKey (splitRuns s)

/-- Python string comparison (lexicographic on code points). -/
def cmpStr : PyStr → PyStr → Ordering
  | [], [] => .eq
  | [], _ :: _ => .lt
  | _ :: _, [] => .gt
  | a :: as', b :: bs' =>
    match compare a b with
    | .eq => cmpStr as' bs'
    | o => o

/-- Python comparison of two key elements; `none` models the `TypeError`
raised when an `int` is compared with a `str`. -/
def cmpElem : KeyElem → KeyElem → Option Ordering
  | .str a, .str b => some (cmpStr a b)
  | .num a, .num b => some (compare a b)
  | _, _ => none

/-- Python list comparison on sort keys: lexicographic, a strict prefix
is smaller; `none` propagates an incomparable-element `TypeError`. -/
def cmpKeyList : List KeyElem → List KeyElem → Option Ordering
  | [], [] => some .eq
  | [], _ :: _ => some .lt
  | _ :: _, [] => some .gt
  | a :: as', b :: bs' =>
    match cmpElem a b with
    | none => none
    | some .eq => cmpKeyList as' bs'
    | some o => some o

/-- Key-level `a <= b` for the sort below; `none` models the `TypeError`
raised when Python's sort compares an `int` key element with a `str` one. -/
def keyLeO (a b : List KeyElem) : Option Bool :=
  match cmpKeyList a b with
  | some .gt => some false
  | some _ => some true
  | none => none

/-- Insertion of a (key, label) pair into a key-sorted list; a raising
comparison aborts the sort. -/
def insertByKey (p : List KeyElem × PyStr) :
    List (List KeyElem × PyStr) → Option (List (List KeyElem × PyStr))
  | [] => some [p]
  | q :: qs =>
    match keyLeO p.1 q.1 with
    | none => none
    | some true => some (p :: q :: qs)
    | some false =>
      match insertByKey p qs with
      | none => none
      | some r => some (q :: r)

/-- Insertion sort on (key, label) pairs, propagating comparison failure. -/
def sortByKey : List (List KeyElem × PyStr) → Option (List (List KeyElem × PyStr))
  | [] => some []
  | p :: ps =>
    match sortByKey ps with
    | none => none
    | some r => insertByKey p r

/-- `sorted(labels, key=natural_sort_key)` (app.py line 271): the key is
computed once per label (a raising key aborts), and the labels are sorted
by comparing keys (a raising comparison aborts). -/
def naturalSort (l : List PyStr) : Option (List PyStr) :=
  match l.mapM (fun s => (natural_sort_key s).map (fun k => (k, s))) with
  | none => none
  | some ps => (sortByKey ps).map (List.map Prod.snd)

/-- Shape predicate on `splitRuns` output for strings with no non-ASCII
digit characters: when the flag expects a text piece, the head contains no
Python-digit character at all (so `isdigit` fails on it) and the list may
end there; a digit piece is a non-empty ASCII digit run and must be
followed by more pieces. -/
def piecesOk : Bool → List PyStr → Bool
  | _, [] => false
  | true, t :: rest =>
    t.all (fun c => !pyIsDigitChar c) && (rest.isEmpty || piecesOk false rest)
  | false, d :: rest => (!d.isEmpty && d.all isDigitN) && piecesOk true rest

/-- The string contains no non-ASCII digit character: every character that
Python's `str.isdigit` counts as a digit is one of the ASCII `[0-9]` that
the split pattern isolates. -/
def asciiDigitsOnly (s : PyStr) : Bool :=
  s.all (fun c => !pyIsDigitChar c || isDigitN c)

/-- Alternation predicate on sort keys: `true` expects a `.str` element. -/
def altFrom : Bool → List KeyElem → Bool
  | _, [] => true
  | true, .str _ :: rest => altFrom false rest
  | false, .num _ :: rest => altFrom true rest
  | _, _ => false

/-! ### Sheet discovery and loading (app.py lines 42-98) -/

/-- `next((s for s in xls.sheet_names if "Component" in s), xls.sheet_names[0])`
(app.py line 51); `none` is the `IndexError` of an empty workbook, which
the surrounding `except` turns into the error result. -/
def compSheet (names : List PyStr) : Option PyStr :=
  match names.find? (fun s => containsSub (pyN "Component") s) with
  | some s => some s
  | none => names.head?

/-- Sets/Delivery sheet discovery (app.py lines 55-56). -/
def setSheet (names : List PyStr) : Option PyStr :=
  match names.find? (fun s => containsSub (pyN "Set") s && containsSub (pyN "Delivery") s) with
  | some s => some s
  | none => names.find? (fun s => containsSub (pyN "Delivery") s)

/-- Projects sheet discovery (app.py line 60). -/
def projSheet (names : List PyStr) : Option PyStr :=
  names.find? (fun s => containsSub (pyN "Project") s && containsSub (pyN "Considered") s)

/-- `df.columns = [c.strip() for c in df.columns]` guarded by
`if not df.empty` (app.py lines 64-66). -/
def stripHeader (t : Table) : Table :=
  if dfEmpty t then t else t.map (fun c => (pyStrip c.1, c.2))

/-- What happened when `load_data` opened the workbook: the file was
missing, reading raised some exception, or parsing produced the list of
(sheet name, sheet table) pairs. -/
inductive LoadOutcome
  | fileMissing
  | readError
  | parsed (wb : List (PyStr × Table))

/-- Result of `load_data`: whether `st.error` was called inside it, and
the three returned values (`none` models Python's `None`). -/
structure LoadResult where
  errorShown : Bool
  comps : Option Table
  sets : Option Table
  projs : Option Table
deriving DecidableEq

/-- `load_data()` (app.py lines 42-92): a missing file returns
`None, None, None` with no message; any exception while reading is caught,
`st.error` is shown and `None, None, None` is returned; otherwise the
three sheets are discovered, headers are stripped and each frame is
cleaned (an absent secondary sheet yields an empty frame). -/
def load_data : LoadOutcome → LoadResult
  | .fileMissing => ⟨false, none, none, none⟩
  | .readError => ⟨true, none, none, none⟩
  | .parsed wb =>
    let names := wb.map Prod.fst
    match compSheet names with
    | none => ⟨true, none, none, none⟩
    | some cs =>
      let sheetTable := fun n => ((wb.lookup n).getD [])
      let df_comp := stripHeader (sheetTable cs)
      let df_sets :=
        match setSheet names with
        | some n => stripHeader (sheetTable n)
        | none => []
      let df_proj :=
        match projSheet names with
        | some n => stripHeader (sheetTable n)
        | none => []
      ⟨false, some (clean df_comp), some (clean df_sets), some (clean df_proj)⟩

/-- The caller-side guard `if df_components is None: st.error(...); st.stop()`
(app.py lines 96-98). -/
def appHalts (r : LoadResult) : Bool := r.comps.isNone

/-! ### Text search masks (app.py lines 158-164 and 285-290) -/

/-- Regex metacharacters of Python `re`; `str.contains` defaults to
`regex=True`, so a query containing one of these is not a literal search. -/
def isMetaChar (n : Nat) : Bool :=
  ([46, 94, 36, 42, 43, 63, 123, 125, 91, 93, 92, 124, 40, 41] : List Nat).contains n

/-- One pattern character against one subject character, `re.IGNORECASE`:
`.` (code 46) matches anything but a newline, a literal matches up to
case. Faithful to `re` on the literal-and-dot pattern fragment. -/
def matchChar (p c : Nat) : Bool :=
  if p = 46 then !(c == 10) else toLowerN p == toLowerN c

/-- Anchored match of the whole pattern at the start of the subject. -/
def matchHere : PyStr → PyStr → Bool
  | [], _ => true
  | _ :: _, [] => false
  | p :: ps, c :: cs => matchChar p c && matchHere ps cs

/-- `re.search` semantics of `Series.str.contains(query, case=False)`
on the literal-and-dot pattern fragment: the pattern matches at some
position of the subject. -/
def reSearch (pat : PyStr) : PyStr → Bool
  | [] => matchHere pat []
  | c :: cs => matchHere pat (c :: cs) || reSearch pat cs

/-- The search mask of both dashboards (app.py lines 162 and 288): keep a
row iff `str.contains(query, case=False)` holds for some value of that
row in the searched column subset (`.any(axis=1)`). -/
def searchFilter {α : Type} (q : PyStr) (vals : α → List PyStr) (rows : List α) : List α :=
  rows.filter (fun r => (vals r).any (fun v => reSearch q v))

/-- The literal reading of the search: the query occurs in the value as a
case-insensitive substring. -/
def litContains (q v : PyStr) : Bool := containsSub (lowerP q) (lowerP v)

/-! ### Project Explorer BOM join (app.py lines 374-396) -/

/-- One inventory row, as used by the BOM join: its part number and its
status text. -/
structure InvRow where
  mfgNo : PyStr
  status : PyStr
deriving DecidableEq

/-- `pd.merge(bom, df_components, left_on="MfgNo", right_on=c_mfg_no,
how="left")` restricted to the status column: every inventory row whose
part number equals the reference attaches; an unmatched reference keeps
one row with a null status. -/
def bomJoin (refs : List PyStr) (inv : List InvRow) : List (PyStr × Option PyStr) :=
  refs.flatMap (fun r =>
    match inv.filter (fun row => row.mfgNo == r) with
    | [] => [(r, none)]
    | ms => ms.map (fun m => (r, some m.status)))

/-- The BOM metric block (app.py lines 377-396): melt values are dropped
when null (`dropna`), length-filtered (`len > 1`) and cleared of
`"Unknown"`; after the left join, `total_parts` is the joined row count,
`in_stock` counts rows whose status contains "Available" case-insensitively
with `na=False`, and `readiness` is the integer-truncated percentage. -/
def bomMetrics (rawRefs : List (Option PyStr)) (inv : List InvRow) : Nat × Nat × Nat :=
  let refs := (rawRefs.filterMap id).filter
    (fun v => decide (1 < v.length) && !(v == pyN "Unknown"))
  let joined := bomJoin refs inv
  let total_parts := joined.length
  let in_stock := (joined.filter (fun jr =>
    match jr.2 with
    | some s => reSearch (pyN "Available") s
    | none => false)).length
  let readiness := if 0 < total_parts then (in_stock * 100) / total_parts else 0
  (total_parts, in_stock, readiness)

/-- "cand is the first element of l satisfying p": p holds at cand and
fails on everything before it. -/
def FirstSuch (p : PyStr → Bool) (l : List PyStr) (a : PyStr) : Prop :=
  p a = true ∧ ∃ l1 l2, l = l1 ++ a :: l2 ∧ ∀ x ∈ l1, p x = false

/-! ## Helper lemmas: characters -/

theorem dropWhile_head_false {p : Nat → Bool} {l : List Nat} {c : Nat}
    (h : (l.dropWhile p).head? = some c) : p c = false := by
  induction l with
  | nil => simp [List.dropWhile] at h
  | cons a as ih =>
    rw [List.dropWhile_cons] at h
    by_cases ha : p a = true
    · rw [if_pos ha] at h
      exact ih h
    · rw [if_neg ha] at h
      simp only [List.head?_cons, Option.some.injEq] at h
      subst h
      exact eq_false_of_ne_true ha

theorem dropWhile_eq_self_of_head {p : Nat → Bool} {l : List Nat}
    (h : ∀ c, l.head? = some c → p c = false) : l.dropWhile p = l := by
  cases l with
  | nil => rfl
  | cons a as =>
    rw [List.dropWhile_cons, if_neg]
    rw [h a rfl]
    simp

/-- A list with no leading and no trailing whitespace is its own strip. -/
theorem pyStrip_eq_self {s : PyStr}
    (h1 : ∀ c, s.head? = some c → isSpaceN c = false)
    (h2 : ∀ c, s.getLast? = some c → isSpaceN c = false) : pyStrip s = s := by
  unfold pyStrip
  rw [dropWhile_eq_self_of_head h1]
  rw [dropWhile_eq_self_of_head (by
    intro c hc
    rw [List.head?_reverse] at hc
    exact h2 c hc)]
  exact s.reverse_reverse

theorem pyStrip_getLast {s : PyStr} {c : Nat}
    (h : (pyStrip s).getLast? = some c) : isSpaceN c = false := by
  unfold pyStrip at h
  rw [List.getLast?_reverse] at h
  exact dropWhile_head_false h

theorem pyStrip_head {s : PyStr} {c : Nat}
    (h : (pyStrip s).head? = some c) : isSpaceN c = false := by
  unfold pyStrip at h
  rw [List.head?_reverse] at h
  rcases hd : (s.dropWhile isSpaceN).reverse.dropWhile isSpaceN with - | ⟨a, as⟩
  · rw [hd] at h
    simp at h
  · rw [hd] at h
    have hsuf : (s.dropWhile isSpaceN).reverse.dropWhile isSpaceN <:+
        (s.dropWhile isSpaceN).reverse := List.dropWhile_suffix isSpaceN
    rw [hd] at hsuf
    obtain ⟨t, ht⟩ := hsuf
    have hx : (s.dropWhile isSpaceN).reverse.getLast? = some c := by
      rw [← ht, List.getLast?_append, h]
      rfl
    rw [List.getLast?_reverse] at hx
    exact dropWhile_head_false hx

theorem pyStrip_pyStrip (s : PyStr) : pyStrip (pyStrip s) = pyStrip s :=
  pyStrip_eq_self (fun _ h => pyStrip_head h) (fun _ h => pyStrip_getLast h)

/-! ## Helper lemmas: title -/

theorem lookup_mem_values {l : List (PyStr × PyStr)} {y c : PyStr}
    (h : l.lookup y = some c) : ∃ k, (k, c) ∈ l := by
  induction l with
  | nil => simp [List.lookup] at h
  | cons a es ih =>
    obtain ⟨k, v⟩ := a
    simp only [List.lookup] at h
    split at h
    · simp only [Option.some.injEq] at h
      subst h
      exact ⟨k, List.mem_cons_self _ _⟩
    · obtain ⟨k', hk'⟩ := ih h
      exact ⟨k', List.mem_cons_of_mem _ hk'⟩

theorem isBrandCol_not_link {name : PyStr} (h : isBrandCol name = true) :
    isLinkCol name = false := by
  unfold isBrandCol at h
  rw [decide_eq_true_iff] at h
  unfold isLinkCol
  rcases h with h | h | h <;> rw [h] <;> decide

theorem cleanCell_not_placeholder (s : PyStr) :
    cleanCell s ≠ pyN "Nan" ∧ cleanCell s ≠ pyN "nan" ∧ cleanCell s ≠ pyN "None" := by
  unfold cleanCell
  by_cases hy : pyTitle (pyStrip s) = pyN "Nan" ∨ pyTitle (pyStrip s) = pyN "nan" ∨
      pyTitle (pyStrip s) = pyN "None"
  · rw [show replacePlaceholders (pyTitle (pyStrip s)) = pyN "Unknown" from
      by simp [replacePlaceholders, hy]]
    refine ⟨?_, ?_, ?_⟩ <;> decide
  · rw [show replacePlaceholders (pyTitle (pyStrip s)) = pyTitle (pyStrip s) from
      by simp [replacePlaceholders, hy]]
    push_neg at hy
    exact hy

theorem brand_value_not_placeholder {c : PyStr} (h : ∃ k, (k, c) ∈ brand_map) :
    c ≠ pyN "Nan" ∧ c ≠ pyN "nan" ∧ c ≠ pyN "None" := by
  obtain ⟨k, hk⟩ := h
  simp only [brand_map, List.mem_cons, List.not_mem_nil, or_false, Prod.mk.injEq] at hk
  rcases hk with ⟨-, h⟩ | ⟨-, h⟩ | ⟨-, h⟩ | ⟨-, h⟩ | ⟨-, h⟩ | ⟨-, h⟩ | ⟨-, h⟩ |
    ⟨-, h⟩ | ⟨-, h⟩ <;> rw [h] <;> exact ⟨by decide, by decide, by decide⟩

theorem lookup_eq_none_of_no_key {l : List (PyStr × PyStr)} {y : PyStr}
    (h : ∀ kc ∈ l, y ≠ kc.1) : l.lookup y = none := by
  induction l with
  | nil => rfl
  | cons a es ih =>
    obtain ⟨k, v⟩ := a
    simp only [List.lookup]
    rw [show (y == k) = false from beq_eq_false_iff_ne.mpr (h (k, v) (List.mem_cons_self _ _))]
    exact ih (fun kc hkc => h kc (List.mem_cons_of_mem _ hkc))

theorem lookup_mem {l : List (PyStr × PyStr)} {y v : PyStr}
    (h : l.lookup y = some v) : (y, v) ∈ l := by
  induction l with
  | nil => simp [List.lookup] at h
  | cons a es ih =>
    obtain ⟨k, w⟩ := a
    simp only [List.lookup] at h
    split at h
    · rename_i hk
      simp only [Option.some.injEq] at h
      rw [beq_iff_eq] at hk
      subst hk
      subst h
      exact List.mem_cons_self _ _
    · exact List.mem_cons_of_mem _ (ih h)

theorem lookup_eq_none_iff {l : List (PyStr × PyStr)} {y : PyStr} :
    l.lookup y = none ↔ ∀ kc ∈ l, y ≠ kc.1 := by
  constructor
  · intro h kc hkc he
    induction l with
    | nil => simp at hkc
    | cons a es ih =>
      obtain ⟨k, w⟩ := a
      simp only [List.lookup] at h
      split at h
      · simp at h
      · rename_i hk
        rcases List.mem_cons.mp hkc with hkc | hkc
        · subst hkc
          rw [he] at hk
          simp at hk
        · exact ih h hkc
  · exact lookup_eq_none_of_no_key

theorem find?_first {p : PyStr → Bool} {l : List PyStr} {a : PyStr}
    (h : l.find? p = some a) : FirstSuch p l a := by
  induction l with
  | nil => simp [List.find?] at h
  | cons x xs ih =>
    by_cases hx : p x = true
    · rw [List.find?_cons_of_pos _ hx] at h
      simp only [Option.some.injEq] at h
      subst h
      exact ⟨hx, [], xs, rfl, by simp⟩
    · rw [List.find?_cons_of_neg _ hx] at h
      obtain ⟨hp, l1, l2, heq, hall⟩ := ih h
      refine ⟨hp, x :: l1, l2, by rw [heq]; rfl, ?_⟩
      intro y hy
      rcases List.mem_cons.mp hy with hy | hy
      · subst hy
        exact eq_false_of_ne_true hx
      · exact hall y hy

theorem find?_isSome_of_any {p : PyStr → Bool} {l : List PyStr} (h : l.any p = true) :
    ∃ s, l.find? p = some s := by
  rcases hf : l.find? p with - | s
  · rw [List.find?_eq_none] at hf
    simp only [List.any_eq_true] at h
    obtain ⟨x, hx, hpx⟩ := h
    exact absurd hpx (hf x hx)
  · exact ⟨s, rfl⟩

theorem find?_eq_none_of_all {p : PyStr → Bool} {l : List PyStr}
    (h : l.all (fun s => !p s) = true) : l.find? p = none := by
  rw [List.find?_eq_none]
  intro x hx
  simp only [List.all_eq_true] at h
  simpa using h x hx

theorem findSome?_eq_some_structure {f : PyStr → Option PyStr} {l : List PyStr} {r : PyStr}
    (h : l.findSome? f = some r) :
    ∃ pre c post, l = pre ++ c :: post ∧ f c = some r ∧ ∀ x ∈ pre, f x = none := by
  induction l with
  | nil => simp at h
  | cons x xs ih =>
    rcases hx : f x with - | b
    · rw [List.findSome?_cons, hx] at h
      obtain ⟨pre, c, post, heq, hc, hpre⟩ := ih h
      refine ⟨x :: pre, c, post, by rw [heq]; rfl, hc, ?_⟩
      intro y hy
      rcases List.mem_cons.mp hy with hy | hy
      · subst hy
        exact hx
      · exact hpre y hy
    · rw [List.findSome?_cons, hx] at h
      simp only [Option.some.injEq] at h
      subst h
      exact ⟨[], x, xs, rfl, hx, by simp⟩

/-! ## Claim theorems -/

/-- C2: for a BOM referencing part numbers ["A1", "A2", "MISSING"], with
inventory holding A1 (status "Available") and A2 (status "Backorder") and
no row for MISSING, the Project-Explorer metrics are
total_parts = 3 (the unmatched reference is counted), in_stock = 1 and
readiness = 33 (integer-truncated percentage). -/
theorem C2_bom_readiness :
    bomMetrics [some (pyN "A1"), some (pyN "A2"), some (pyN "MISSING")]
      [⟨pyN "A1", pyN "Available"⟩, ⟨pyN "A2", pyN "Backorder"⟩] = (3, 1, 33) := by
  decide

/-- C3 counterexample: on a generic read exception `load_data` catches it
and shows a message, but the three returned values are Python `None` —
in particular the components value is not an (empty) table, refuting
"returns all three tables empty rather than ... an absent/None result". -/
theorem C3_counterexample :
    (load_data .readError).errorShown = true ∧
    (load_data .readError).comps = none ∧
    (load_data .readError).comps ≠ some ([] : Table) := by
  decide

/-- C3 amended: on a generic load exception the exception is caught, a
user-visible message is shown, and all three tables are returned as
`None` (absent, not empty); the caller then detects the absent result and
halts the page with its own message instead of crashing. -/
theorem C3_amended :
    load_data .readError = ⟨true, none, none, none⟩ ∧
    appHalts (load_data .readError) = true := by
  decide

/-- C10 (implicit): the text-search filter interprets the query as a
regular expression, not a literal substring: the query "a.c" contains a
regex metacharacter and the filter keeps a row whose searched value
"xabcy" does not contain "a.c" as a literal substring. -/
theorem C10_search_is_regex :
    searchFilter (pyN "a.c") Prod.snd [((0 : Nat), [pyN "xabcy"])]
      = [(0, [pyN "xabcy"])] ∧
    litContains (pyN "a.c") (pyN "xabcy") = false ∧
    (pyN "a.c").any isMetaChar = true := by
  decide

/-- C4: the brand normalization is applied exactly to columns whose name
case-insensitively equals mfg/manufacturer/brand, after the title-casing
text pass; on one cell it is an exact-match substitution: every synonym
key maps to its canonical form (e.g. "Dfrobot" to "DFRobot", "Sparkfun"
to "SparkFun") and every value that is not a key passes through. -/
theorem C4_brand_normalization :
    (∀ name cells, isBrandCol name = true →
      cleanColumn name cells = (cells.map cleanCell).map brandReplace) ∧
    (∀ name cells, isBrandCol name = false →
      cleanColumn name cells = cells ∨ cleanColumn name cells = cells.map cleanCell) ∧
    brandReplace (pyN "Dfrobot") = pyN "DFRobot" ∧
    brandReplace (pyN "Sparkfun") = pyN "SparkFun" ∧
    (∀ k c, (k, c) ∈ brand_map → brandReplace k = c) ∧
    (∀ v, (∀ kc ∈ brand_map, v ≠ kc.1) → brandReplace v = v) := by
  refine ⟨?_, ?_, by decide, by decide, ?_, ?_⟩
  · intro name cells hB
    unfold cleanColumn
    simp [isBrandCol_not_link hB, hB]
  · intro name cells hB
    unfold cleanColumn
    by_cases hL : isLinkCol name = true
    · left
      simp [hL, hB]
    · right
      simp [eq_false_of_ne_true hL, hB]
  · intro k c hkc
    simp only [brand_map, List.mem_cons, List.not_mem_nil, or_false, Prod.mk.injEq] at hkc
    rcases hkc with ⟨hk, hc⟩ | ⟨hk, hc⟩ | ⟨hk, hc⟩ | ⟨hk, hc⟩ | ⟨hk, hc⟩ | ⟨hk, hc⟩ |
      ⟨hk, hc⟩ | ⟨hk, hc⟩ | ⟨hk, hc⟩ <;> rw [hk, hc] <;> decide
  · intro v hv
    unfold brandReplace
    rw [lookup_eq_none_of_no_key hv]

/-- C4 witness: a concrete manufacturer column goes through the text pass
then the brand pass; "Pololu" is a synonym key mapping to itself; a value
that is no key is unchanged. -/
theorem C4_witness :
    cleanColumn (pyN "Mfg") [pyN " dfrobot "] =
      ([pyN " dfrobot "].map cleanCell).map brandReplace ∧
    brandReplace (pyN "Pololu") = pyN "Pololu" ∧
    brandReplace (pyN "Acme") = pyN "Acme" :=
  ⟨C4_brand_normalization.1 (pyN "Mfg") [pyN " dfrobot "] (by decide),
   C4_brand_normalization.2.2.2.2.1 (pyN "Pololu") (pyN "Pololu") (by decide),
   C4_brand_normalization.2.2.2.2.2 (pyN "Acme") (by decide)⟩

/-- C8: columns whose name contains "link" (case-insensitively) are left
untouched by cleaning; in every other column cleaning is exactly
strip-then-title-then-placeholder-substitution (followed by the brand pass
only on manufacturer-named columns), and afterwards no cell equals "Nan",
"nan" or "None". -/
theorem C8_text_cleaning :
    (∀ name cells, isLinkCol name = true → cleanColumn name cells = cells) ∧
    (∀ name cells v, isLinkCol name = false → v ∈ cleanColumn name cells →
      v ≠ pyN "Nan" ∧ v ≠ pyN "nan" ∧ v ≠ pyN "None") ∧
    (∀ name cells, isLinkCol name = false → isBrandCol name = false →
      cleanColumn name cells =
        cells.map (fun s => replacePlaceholders (pyTitle (pyStrip s)))) := by
  refine ⟨?_, ?_, ?_⟩
  · intro name cells hL
    unfold cleanColumn
    have hB : isBrandCol name = false := by
      by_cases hB : isBrandCol name = true
      · rw [isBrandCol_not_link hB] at hL
        simp at hL
      · exact eq_false_of_ne_true hB
    simp [hL, hB]
  · intro name cells v hL hv
    unfold cleanColumn at hv
    rw [hL] at hv
    simp only [Bool.false_eq_true, if_false] at hv
    by_cases hB : isBrandCol name = true
    · rw [hB] at hv
      simp only [if_true, List.map_map, List.mem_map] at hv
      obtain ⟨x, -, hx⟩ := hv
      simp only [Function.comp_apply] at hx
      subst hx
      rcases hl : brand_map.lookup (cleanCell x) with - | c
      · rw [show brandReplace (cleanCell x) = cleanCell x from
          by unfold brandReplace; rw [hl]]
        exact cleanCell_not_placeholder x
      · rw [show brandReplace (cleanCell x) = c from by unfold brandReplace; rw [hl]]
        exact brand_value_not_placeholder (lookup_mem_values hl)
    · rw [eq_false_of_ne_true hB] at hv
      simp only [Bool.false_eq_true, if_false, List.mem_map] at hv
      obtain ⟨x, -, hx⟩ := hv
      subst hx
      exact cleanCell_not_placeholder x
  · intro name cells hL hB
    unfold cleanColumn
    simp [hL, hB]
    intro a _
    rfl

/-- C8 witness: a link column keeps " nan " verbatim; in a non-link column
" nan " becomes "Unknown", which differs from all three placeholder
tokens, and the column transformation is exactly the strip/title/replace
composite. -/
theorem C8_witness :
    cleanColumn (pyN "Datasheet Link") [pyN " nan "] = [pyN " nan "] ∧
    (pyN "Unknown" ≠ pyN "Nan" ∧ pyN "Unknown" ≠ pyN "nan" ∧
      pyN "Unknown" ≠ pyN "None") ∧
    cleanColumn (pyN "Status") [pyN " nan "] =
      [pyN " nan "].map (fun s => replacePlaceholders (pyTitle (pyStrip s))) :=
  ⟨C8_text_cleaning.1 (pyN "Datasheet Link") [pyN " nan "] (by decide),
   C8_text_cleaning.2.1 (pyN "Status") [pyN " nan "] (pyN "Unknown") (by decide) (by decide),
   C8_text_cleaning.2.2 (pyN "Status") [pyN " nan "] (by decide) (by decide)⟩

/-- C6 counterexample: `get_col` starts with `if df is None or df.empty:
return None`, so for a table that has a column "set" but zero rows, the
candidate "Set" matches the column case-insensitively and yet the
resolver returns `None`, refuting the claim as stated over every table. -/
theorem C6_counterexample :
    get_col [(pyN "set", ([] : List PyStr))] [pyN "Set No", pyN "Set"] = none ∧
    lowerP (pyN "Set") = lowerP (pyN "set") := by
  decide

/-- C6 amended: provided the table is non-empty (has a column and a row;
pandas `df.empty` is false), the resolver returns, for the first candidate
(in candidate-list order) whose lower-cased name is a key of the column
dictionary, the actual column name recorded there, and returns `None`
exactly when no candidate matches any column case-insensitively; in
particular for candidates ["Set No", "Set"] and a one-row table whose
only column is "set" it returns "set". For an empty table the resolver
returns `None` regardless of the columns. -/
theorem C6_get_col :
    (∀ (t : Table) (cands : List PyStr) (r : PyStr), dfEmpty t = false →
      get_col t cands = some r →
      (∃ cells, (r, cells) ∈ t) ∧
      ∃ pre c post, cands = pre ++ c :: post ∧ lowerP c = lowerP r ∧
        ∀ c' ∈ pre, ∀ col ∈ t, lowerP c' ≠ lowerP col.1) ∧
    (∀ (t : Table) (cands : List PyStr), dfEmpty t = false →
      (get_col t cands = none ↔ ∀ c ∈ cands, ∀ col ∈ t, lowerP c ≠ lowerP col.1)) ∧
    get_col [(pyN "set", [pyN "v"])] [pyN "Set No", pyN "Set"] = some (pyN "set") := by
  have hmem_m : ∀ (t : Table) (kc : PyStr × PyStr),
      kc ∈ (t.map (fun c => (lowerP c.1, c.1))).reverse ↔
      ∃ col ∈ t, (lowerP col.1, col.1) = kc := by
    intro t kc
    rw [List.mem_reverse, List.mem_map]
  refine ⟨?_, ?_, by decide⟩
  · intro t cands r hne h
    unfold get_col at h
    rw [if_neg (by simp [hne])] at h
    obtain ⟨pre, c, post, heq, hc, hpre⟩ := findSome?_eq_some_structure h
    obtain ⟨col, hcol, hpair⟩ := (hmem_m t _).mp (lookup_mem hc)
    have hr : col.1 = r := congrArg Prod.snd hpair
    have hk : lowerP col.1 = lowerP c := congrArg Prod.fst hpair
    constructor
    · exact ⟨col.2, by rw [← hr]; exact (by simpa using hcol)⟩
    · refine ⟨pre, c, post, heq, by rw [← hr, ← hk], ?_⟩
      intro c' hc' col' hcol' he
      have hn := lookup_eq_none_iff.mp (hpre c' hc')
      exact hn (lowerP col'.1, col'.1) ((hmem_m t _).mpr ⟨col', hcol', rfl⟩) he
  · intro t cands hne
    unfold get_col
    rw [if_neg (by simp [hne]), List.findSome?_eq_none_iff]
    constructor
    · intro h c hc col hcol he
      exact lookup_eq_none_iff.mp (h c hc) (lowerP col.1, col.1)
        ((hmem_m t _).mpr ⟨col, hcol, rfl⟩) he
    · intro h c hc
      apply lookup_eq_none_of_no_key
      intro kc hkc
      obtain ⟨col, hcol, hpair⟩ := (hmem_m t _).mp hkc
      rw [← hpair]
      exact h c hc col hcol

/-- C6 witness: the amended resolver facts evaluated at a one-row table
with column "set": the matching candidate "Set" is found in candidate
order, and a candidate list with no match resolves to `None`. -/
theorem C6_witness :
    ((∃ cells, (pyN "set", cells) ∈ ([(pyN "set", [pyN "v"])] : Table)) ∧
      ∃ pre c post, ([pyN "Set No", pyN "Set"] : List PyStr) = pre ++ c :: post ∧
        lowerP c = lowerP (pyN "set") ∧
        ∀ c' ∈ pre, ∀ col ∈ ([(pyN "set", [pyN "v"])] : Table),
          lowerP c' ≠ lowerP col.1) ∧
    (get_col [(pyN "set", [pyN "v"])] [pyN "Nope"] = none ↔
      ∀ c ∈ ([pyN "Nope"] : List PyStr), ∀ col ∈ ([(pyN "set", [pyN "v"])] : Table),
        lowerP c ≠ lowerP col.1) :=
  ⟨C6_get_col.1 [(pyN "set", [pyN "v"])] [pyN "Set No", pyN "Set"] (pyN "set")
      (by decide) (by decide),
   C6_get_col.2.1 [(pyN "set", [pyN "v"])] [pyN "Nope"] (by decide)⟩

/-- C7: components sheet = first sheet whose name contains "Component",
else the workbook's first sheet; sets sheet = first sheet containing both
"Set" and "Delivery", else first containing "Delivery", else absent;
projects sheet = first sheet containing both "Project" and "Considered",
else absent. -/
theorem C7_sheet_selection :
    (∀ names : List PyStr,
      names.any (fun s => containsSub (pyN "Component") s) = true →
      ∃ s, compSheet names = some s ∧
        FirstSuch (fun s => containsSub (pyN "Component") s) names s) ∧
    (∀ names : List PyStr,
      names.all (fun s => !containsSub (pyN "Component") s) = true →
      compSheet names = names.head?) ∧
    (∀ names : List PyStr,
      names.any (fun s => containsSub (pyN "Set") s && containsSub (pyN "Delivery") s) = true →
      ∃ s, setSheet names = some s ∧
        FirstSuch (fun s => containsSub (pyN "Set") s && containsSub (pyN "Delivery") s)
          names s) ∧
    (∀ names : List PyStr,
      names.all (fun s => !(containsSub (pyN "Set") s && containsSub (pyN "Delivery") s)) = true →
      names.any (fun s => containsSub (pyN "Delivery") s) = true →
      ∃ s, setSheet names = some s ∧
        FirstSuch (fun s => containsSub (pyN "Delivery") s) names s) ∧
    (∀ names : List PyStr,
      names.all (fun s => !containsSub (pyN "Delivery") s) = true →
      setSheet names = none) ∧
    (∀ names : List PyStr,
      names.any (fun s => containsSub (pyN "Project") s && containsSub (pyN "Considered") s)
        = true →
      ∃ s, projSheet names = some s ∧
        FirstSuch (fun s => containsSub (pyN "Project") s && containsSub (pyN "Considered") s)
          names s) ∧
    (∀ names : List PyStr,
      names.all (fun s => !(containsSub (pyN "Project") s && containsSub (pyN "Considered") s))
        = true →
      projSheet names = none) := by
  refine ⟨?_, ?_, ?_, ?_, ?_, ?_, ?_⟩
  · intro names h
    obtain ⟨s, hs⟩ := find?_isSome_of_any h
    exact ⟨s, by unfold compSheet; rw [hs], find?_first hs⟩
  · intro names h
    unfold compSheet
    rw [find?_eq_none_of_all h]
  · intro names h
    obtain ⟨s, hs⟩ := find?_isSome_of_any h
    exact ⟨s, by unfold setSheet; rw [hs], find?_first hs⟩
  · intro names hall hany
    obtain ⟨s, hs⟩ := find?_isSome_of_any hany
    exact ⟨s, by unfold setSheet; rw [find?_eq_none_of_all hall, hs], find?_first hs⟩
  · intro names h
    unfold setSheet
    rw [find?_eq_none_of_all (by
      simp only [List.all_eq_true] at h ⊢
      intro x hx
      simp [h x hx])]
    rw [find?_eq_none_of_all h]
  · intro names h
    obtain ⟨s, hs⟩ := find?_isSome_of_any h
    exact ⟨s, by unfold projSheet; rw [hs], find?_first hs⟩
  · intro names h
    unfold projSheet
    rw [find?_eq_none_of_all h]

/-- C7 witness: the sheet policy evaluated on concrete workbooks: a
"Components List" sheet wins over a non-matching first sheet; with no
match the first sheet is used; "Set Delivery" wins over a plain
"Delivery Log"; a delivery-only workbook falls back to it; a workbook
without "Delivery" has no sets sheet; "Projects Considered" is found,
and without it the projects sheet is absent. -/
theorem C7_witness :
    (∃ s, compSheet [pyN "Misc", pyN "Components List"] = some s ∧
      FirstSuch (fun s => containsSub (pyN "Component") s)
        [pyN "Misc", pyN "Components List"] s) ∧
    compSheet [pyN "Misc", pyN "Other"] = ([pyN "Misc", pyN "Other"] : List PyStr).head? ∧
    (∃ s, setSheet [pyN "Delivery Log", pyN "Set Delivery"] = some s ∧
      FirstSuch (fun s => containsSub (pyN "Set") s && containsSub (pyN "Delivery") s)
        [pyN "Delivery Log", pyN "Set Delivery"] s) ∧
    (∃ s, setSheet [pyN "Delivery Log"] = some s ∧
      FirstSuch (fun s => containsSub (pyN "Delivery") s) [pyN "Delivery Log"] s) ∧
    setSheet [pyN "Components"] = none ∧
    (∃ s, projSheet [pyN "Projects Considered"] = some s ∧
      FirstSuch (fun s => containsSub (pyN "Project") s && containsSub (pyN "Considered") s)
        [pyN "Projects Considered"] s) ∧
    projSheet [pyN "Sheet1"] = none :=
  ⟨C7_sheet_selection.1 _ (by decide),
   C7_sheet_selection.2.1 _ (by decide),
   C7_sheet_selection.2.2.1 _ (by decide),
   C7_sheet_selection.2.2.2.1 _ (by decide) (by decide),
   C7_sheet_selection.2.2.2.2.1 _ (by decide),
   C7_sheet_selection.2.2.2.2.2.1 _ (by decide),
   C7_sheet_selection.2.2.2.2.2.2 _ (by decide)⟩

theorem matchHere_lit {pat : PyStr} (h : ∀ p ∈ pat, isMetaChar p = false) :
    ∀ v : PyStr, matchHere pat v = (lowerP pat).isPrefixOf (lowerP v) := by
  induction pat with
  | nil => intro v; cases v <;> rfl
  | cons p ps ih =>
    intro v
    have hp : p ≠ 46 := by
      intro he
      have := h p (List.mem_cons_self _ _)
      rw [he] at this
      simp [isMetaChar] at this
    cases v with
    | nil => rfl
    | cons c cs =>
      show (matchChar p c && matchHere ps cs) = _
      rw [show matchChar p c = (toLowerN p == toLowerN c) from by
        unfold matchChar; rw [if_neg hp]]
      rw [ih (fun x hx => h x (List.mem_cons_of_mem _ hx)) cs]
      rfl

theorem reSearch_lit {q : PyStr} (h : ∀ p ∈ q, isMetaChar p = false) :
    ∀ v : PyStr, reSearch q v = litContains q v := by
  intro v
  induction v with
  | nil =>
    show matchHere q [] = containsSub (lowerP q) (lowerP [])
    rw [show matchHere q [] = (lowerP q).isPrefixOf (lowerP []) from matchHere_lit h []]
    cases hq : lowerP q <;> rfl
  | cons c cs ih =>
    show (matchHere q (c :: cs) || reSearch q cs) = containsSub (lowerP q) (lowerP (c :: cs))
    rw [matchHere_lit h (c :: cs), ih]
    rfl

/-- C9 counterexample: the query "a.c" is a case-insensitive literal
substring of exactly one row's searched value ("xa.cy") and of no other
row's, yet the filter does not return just that row: the regex dot also
matches "xabcy". -/
theorem C9_counterexample :
    litContains (pyN "a.c") (pyN "xa.cy") = true ∧
    litContains (pyN "a.c") (pyN "xabcy") = false ∧
    searchFilter (pyN "a.c") Prod.snd
      [((0 : Nat), [pyN "xa.cy"]), (1, [pyN "xabcy"])]
      ≠ [(0, [pyN "xa.cy"])] := by
  decide

/-- C9 amended: for every search string containing no regex metacharacter,
if the query occurs case-insensitively as a substring of some value of
exactly one row's searched column subset and of no other row's, the text
search returns exactly that row. -/
theorem C9_search_unique_row {α : Type} (q : PyStr) (vals : α → List PyStr)
    (pre post : List α) (r0 : α)
    (hq : q.all (fun c => !isMetaChar c) = true)
    (h0 : (vals r0).any (fun v => litContains q v) = true)
    (hpre : ∀ r ∈ pre, (vals r).any (fun v => litContains q v) = false)
    (hpost : ∀ r ∈ post, (vals r).any (fun v => litContains q v) = false) :
    searchFilter q vals (pre ++ r0 :: post) = [r0] := by
  have hq' : ∀ p ∈ q, isMetaChar p = false := by
    simp only [List.all_eq_true, Bool.not_eq_true'] at hq
    exact hq
  have hrw : ∀ r : α, ((vals r).any (fun v => reSearch q v))
      = ((vals r).any (fun v => litContains q v)) := by
    intro r
    simp only [reSearch_lit hq']
  unfold searchFilter
  rw [List.filter_append]
  rw [List.filter_eq_nil_iff.mpr (by
    intro a ha
    rw [hrw a, hpre a ha]
    simp)]
  rw [List.filter_cons_of_pos (by rw [hrw r0]; exact h0)]
  rw [List.filter_eq_nil_iff.mpr (by
    intro a ha
    rw [hrw a, hpost a ha]
    simp)]
  rfl

/-- C9 witness: the metacharacter-free query "widget" matches exactly the
middle row case-insensitively, and the filter returns exactly that row. -/
theorem C9_witness :
    searchFilter (pyN "widget") Prod.snd
      [((0 : Nat), [pyN "gear"]), (1, [pyN "Big Widget 9"]), (2, [pyN "bolt"])]
      = [(1, [pyN "Big Widget 9"])] :=
  C9_search_unique_row (pyN "widget") Prod.snd [(0, [pyN "gear"])] [(2, [pyN "bolt"])]
    (1, [pyN "Big Widget 9"]) (by decide) (by decide) (by decide) (by decide)

/-! ## Natural-sort helper lemmas -/

theorem piecesOk_splitStep (c : Nat) {pieces : List PyStr}
    (hc : (!pyIsDigitChar c || isDigitN c) = true)
    (h : piecesOk true pieces = true) : piecesOk true (splitStep c pieces) = true := by
  cases hd : isDigitN c with
  | false =>
    have hnd : pyIsDigitChar c = false := by
      rw [hd] at hc
      simp only [Bool.or_false, Bool.not_eq_true'] at hc
      exact hc
    rcases pieces with - | ⟨t, rest⟩
    · simp [piecesOk] at h
    · simp_all [splitStep, piecesOk]
  | true =>
    rcases pieces with - | ⟨t, rest⟩
    · simp [piecesOk] at h
    · rcases t with - | ⟨a, t'⟩
      · rcases rest with - | ⟨d, rest'⟩
        · simp_all [splitStep, piecesOk]
        · simp_all [splitStep, piecesOk]
      · simp_all [splitStep, piecesOk]

theorem piecesOk_splitRuns {s : PyStr} (hs : asciiDigitsOnly s = true) :
    piecesOk true (splitRuns s) = true := by
  induction s with
  | nil => rfl
  | cons c cs ih =>
    simp only [asciiDigitsOnly, List.all_cons, Bool.and_eq_true] at hs
    exact piecesOk_splitStep c hs.1 (ih hs.2)

theorem key_of_piecesOk : ∀ (pieces : List PyStr) (b : Bool),
    piecesOk b pieces = true →
    ∃ ks, mapOption pieceKey pieces = some ks ∧ altFrom b ks = true := by
  intro pieces
  induction pieces with
  | nil => intro b h; simp [piecesOk] at h
  | cons p rest ih =>
    intro b hb
    cases b with
    | true =>
      simp only [piecesOk, Bool.and_eq_true, Bool.or_eq_true] at hb
      have hkey : pieceKey p = some (.str (lowerP p)) := by
        rcases p with - | ⟨a, as⟩
        · rfl
        · have ha : pyIsDigitChar a = false := by
            have h1 := hb.1
            simp only [List.all_cons, Bool.and_eq_true, Bool.not_eq_true'] at h1
            exact h1.1
          simp only [pieceKey]
          rw [if_neg (by
            intro hcond
            simp only [List.isEmpty_cons, Bool.not_false, Bool.true_and, List.all_cons,
              Bool.and_eq_true] at hcond
            rw [ha] at hcond
            exact Bool.false_ne_true hcond.1)]
      rcases hb.2 with hemp | hrest
      · rw [show rest = [] from by rwa [List.isEmpty_iff] at hemp]
        refine ⟨[.str (lowerP p)], ?_, rfl⟩
        simp [mapOption, hkey]
      · obtain ⟨ks, hm, halt⟩ := ih false hrest
        refine ⟨.str (lowerP p) :: ks, ?_, halt⟩
        simp [mapOption, hkey, hm]
    | false =>
      simp only [piecesOk, Bool.and_eq_true] at hb
      have hdig : p.all pyIsDigitChar = true := by
        have h1 := hb.1.2
        simp only [List.all_eq_true] at h1 ⊢
        intro x hx
        have hx' := h1 x hx
        simp only [isDigitN, decide_eq_true_eq] at hx'
        simp only [pyIsDigitChar, decide_eq_true_eq]
        omega
      have hdec : p.all pyIsDecimalChar = true := by
        have h1 := hb.1.2
        simp only [List.all_eq_true] at h1 ⊢
        intro x hx
        have hx' := h1 x hx
        simp only [isDigitN, decide_eq_true_eq] at hx'
        simp only [pyIsDecimalChar, decide_eq_true_eq]
        omega
      have hkey : pieceKey p = some (.num (natVal p)) := by
        simp only [pieceKey]
        rw [if_pos (by rw [Bool.and_eq_true]; exact ⟨hb.1.1, hdig⟩), if_pos hdec]
      obtain ⟨ks, hm, halt⟩ := ih true hb.2
      refine ⟨.num (natVal p) :: ks, ?_, halt⟩
      simp [mapOption, hkey, hm]

theorem natural_sort_key_safe {s : PyStr} (hs : asciiDigitsOnly s = true) :
    ∃ ks, natural_sort_key s = some ks ∧ altFrom true ks = true :=
  key_of_piecesOk (splitRuns s) true (piecesOk_splitRuns hs)

theorem cmpKeyList_isSome_of_alt :
    ∀ (xs : List KeyElem) (b : Bool) (ys : List KeyElem),
    altFrom b xs = true → altFrom b ys = true →
    ∃ o, cmpKeyList xs ys = some o := by
  intro xs
  induction xs with
  | nil =>
    intro b ys _ _
    cases ys with
    | nil => exact ⟨.eq, rfl⟩
    | cons y ys' => exact ⟨.lt, rfl⟩
  | cons x xs' ih =>
    intro b ys hx hy
    cases ys with
    | nil => exact ⟨.gt, rfl⟩
    | cons y ys' =>
      cases b with
      | true =>
        rcases x with a | n
        · rcases y with a' | n'
          · show ∃ o, (match some (cmpStr a a') with
              | none => none
              | some .eq => cmpKeyList xs' ys'
              | some o => some o) = some o
            rcases hc : cmpStr a a' with - | - | -
            · exact ⟨.lt, rfl⟩
            · exact ih false ys' hx hy
            · exact ⟨.gt, rfl⟩
          · exact absurd hy (by simp [altFrom])
        · exact absurd hx (by simp [altFrom])
      | false =>
        rcases x with a | n
        · exact absurd hx (by simp [altFrom])
        · rcases y with a' | n'
          · exact absurd hy (by simp [altFrom])
          · show ∃ o, (match some (compare n n') with
              | none => none
              | some .eq => cmpKeyList xs' ys'
              | some o => some o) = some o
            rcases hc : compare n n' with - | - | -
            · exact ⟨.lt, rfl⟩
            · exact ih true ys' hx hy
            · exact ⟨.gt, rfl⟩

theorem natCompare_swap (m n : Nat) : compare n m = (compare m n).swap := by
  rcases h : compare m n with - | - | -
  · rw [Nat.compare_eq_lt] at h
    exact Nat.compare_eq_gt.mpr h
  · rw [Nat.compare_eq_eq] at h
    exact Nat.compare_eq_eq.mpr h.symm
  · rw [Nat.compare_eq_gt] at h
    exact Nat.compare_eq_lt.mpr h

theorem cmpStr_eq_iff : ∀ a b : PyStr, cmpStr a b = .eq ↔ a = b := by
  intro a
  induction a with
  | nil =>
    intro b
    cases b with
    | nil => simp [cmpStr]
    | cons y bs => simp [cmpStr]
  | cons x as ih =>
    intro b
    cases b with
    | nil => simp [cmpStr]
    | cons y bs =>
      simp only [cmpStr]
      rcases hc : compare x y with - | - | -
      · constructor
        · intro h
          exact Ordering.noConfusion h
        · intro h
          injection h with h1 h2
          rw [Nat.compare_eq_lt] at hc
          omega
      · rw [Nat.compare_eq_eq] at hc
        subst hc
        rw [ih bs]
        simp
      · constructor
        · intro h
          exact Ordering.noConfusion h
        · intro h
          injection h with h1 h2
          rw [Nat.compare_eq_gt] at hc
          omega

theorem cmpStr_swap : ∀ a b : PyStr, cmpStr b a = (cmpStr a b).swap := by
  intro a
  induction a with
  | nil =>
    intro b
    cases b with
    | nil => rfl
    | cons y bs => rfl
  | cons x as ih =>
    intro b
    cases b with
    | nil => rfl
    | cons y bs =>
      simp only [cmpStr]
      rw [natCompare_swap x y]
      rcases hc : compare x y with - | - | -
      · rfl
      · exact ih bs
      · rfl

theorem cmpStr_lt_trans : ∀ a b c : PyStr,
    cmpStr a b = .lt → cmpStr b c = .lt → cmpStr a c = .lt := by
  intro a
  induction a with
  | nil =>
    intro b c h1 h2
    cases b with
    | nil => simp [cmpStr] at h1
    | cons y bs =>
      cases c with
      | nil => simp [cmpStr] at h2
      | cons z cs => rfl
  | cons x as ih =>
    intro b c h1 h2
    cases b with
    | nil => simp [cmpStr] at h1
    | cons y bs =>
      cases c with
      | nil => simp [cmpStr] at h2
      | cons z cs =>
        simp only [cmpStr] at h1 h2 ⊢
        rcases hxy : compare x y with - | - | - <;> rw [hxy] at h1 <;>
          rcases hyz : compare y z with - | - | - <;> rw [hyz] at h2
        · rw [Nat.compare_eq_lt] at hxy
          rw [Nat.compare_eq_lt] at hyz
          rw [Nat.compare_eq_lt.mpr (by omega)]
        · rw [Nat.compare_eq_lt] at hxy
          rw [Nat.compare_eq_eq] at hyz
          rw [Nat.compare_eq_lt.mpr (by omega)]
        · exact Ordering.noConfusion h2
        · rw [Nat.compare_eq_eq] at hxy
          rw [Nat.compare_eq_lt] at hyz
          rw [Nat.compare_eq_lt.mpr (by omega)]
        · rw [Nat.compare_eq_eq] at hxy
          rw [Nat.compare_eq_eq] at hyz
          rw [Nat.compare_eq_eq.mpr (by omega)]
          exact ih bs cs h1 h2
        · exact Ordering.noConfusion h2
        · exact Ordering.noConfusion h1
        · exact Ordering.noConfusion h1
        · exact Ordering.noConfusion h1

theorem cmpElem_refl (e : KeyElem) : cmpElem e e = some .eq := by
  cases e with
  | str a =>
    show some (cmpStr a a) = some .eq
    rw [(cmpStr_eq_iff a a).mpr rfl]
  | num n =>
    show some (compare n n) = some .eq
    rw [Nat.compare_eq_eq.mpr rfl]

theorem cmpElem_eq_imp : ∀ {e f : KeyElem}, cmpElem e f = some .eq → e = f := by
  intro e f h
  cases e with
  | str a =>
    cases f with
    | str b =>
      simp only [cmpElem, Option.some.injEq] at h
      rw [(cmpStr_eq_iff a b).mp h]
    | num m => simp [cmpElem] at h
  | num n =>
    cases f with
    | str b => simp [cmpElem] at h
    | num m =>
      simp only [cmpElem, Option.some.injEq] at h
      rw [Nat.compare_eq_eq.mp h]

theorem cmpElem_swap (e f : KeyElem) : cmpElem f e = (cmpElem e f).map Ordering.swap := by
  cases e with
  | str a =>
    cases f with
    | str b =>
      show some (cmpStr b a) = (some (cmpStr a b)).map Ordering.swap
      rw [cmpStr_swap a b]
      rfl
    | num m => rfl
  | num n =>
    cases f with
    | str b => rfl
    | num m =>
      show some (compare m n) = (some (compare n m)).map Ordering.swap
      rw [natCompare_swap n m]
      rfl

theorem cmpElem_lt_trans : ∀ {e f g : KeyElem},
    cmpElem e f = some .lt → cmpElem f g = some .lt → cmpElem e g = some .lt := by
  intro e f g h1 h2
  cases e with
  | str a =>
    cases f with
    | str b =>
      cases g with
      | str c =>
        simp only [cmpElem, Option.some.injEq] at h1 h2 ⊢
        exact cmpStr_lt_trans a b c h1 h2
      | num m => simp [cmpElem] at h2
    | num m => simp [cmpElem] at h1
  | num n =>
    cases f with
    | str b => simp [cmpElem] at h1
    | num m =>
      cases g with
      | str c => simp [cmpElem] at h2
      | num k =>
        simp only [cmpElem, Option.some.injEq] at h1 h2 ⊢
        rw [Nat.compare_eq_lt] at h1 h2 ⊢
        omega

theorem cmpKeyList_refl : ∀ xs : List KeyElem, cmpKeyList xs xs = some .eq := by
  intro xs
  induction xs with
  | nil => rfl
  | cons x xs' ih =>
    show (match cmpElem x x with
      | none => none
      | some .eq => cmpKeyList xs' xs'
      | some o => some o) = some .eq
    rw [cmpElem_refl]
    exact ih

theorem cmpKeyList_eq_imp : ∀ {xs ys : List KeyElem},
    cmpKeyList xs ys = some .eq → xs = ys := by
  intro xs
  induction xs with
  | nil =>
    intro ys h
    cases ys with
    | nil => rfl
    | cons y ys' => simp [cmpKeyList] at h
  | cons x xs' ih =>
    intro ys h
    cases ys with
    | nil => simp [cmpKeyList] at h
    | cons y ys' =>
      simp only [cmpKeyList] at h
      rcases he : cmpElem x y with - | o
      · rw [he] at h
        exact absurd h (by simp)
      · rw [he] at h
        rcases o with - | - | -
        · exact absurd h (by simp)
        · rw [cmpElem_eq_imp he, ih h]
        · exact absurd h (by simp)

theorem cmpKeyList_swap : ∀ xs ys : List KeyElem,
    cmpKeyList ys xs = (cmpKeyList xs ys).map Ordering.swap := by
  intro xs
  induction xs with
  | nil =>
    intro ys
    cases ys with
    | nil => rfl
    | cons y ys' => rfl
  | cons x xs' ih =>
    intro ys
    cases ys with
    | nil => rfl
    | cons y ys' =>
      simp only [cmpKeyList]
      rw [cmpElem_swap x y]
      rcases he : cmpElem x y with - | o
      · rfl
      · rcases o with - | - | -
        · rfl
        · exact ih ys'
        · rfl

theorem cmpKeyList_lt_trans : ∀ {xs ys zs : List KeyElem},
    cmpKeyList xs ys = some .lt → cmpKeyList ys zs = some .lt →
    cmpKeyList xs zs = some .lt := by
  intro xs
  induction xs with
  | nil =>
    intro ys zs h1 h2
    cases ys with
    | nil => simp [cmpKeyList] at h1
    | cons y ys' =>
      cases zs with
      | nil => simp [cmpKeyList] at h2
      | cons z zs' => rfl
  | cons x xs' ih =>
    intro ys zs h1 h2
    cases ys with
    | nil => simp [cmpKeyList] at h1
    | cons y ys' =>
      cases zs with
      | nil => simp [cmpKeyList] at h2
      | cons z zs' =>
        simp only [cmpKeyList] at h1 h2 ⊢
        rcases he1 : cmpElem x y with - | o1
        · rw [he1] at h1
          exact Option.noConfusion h1
        · rw [he1] at h1
          rcases o1 with - | - | -
          · rcases he2 : cmpElem y z with - | o2
            · rw [he2] at h2
              exact Option.noConfusion h2
            · rw [he2] at h2
              rcases o2 with - | - | -
              · rw [cmpElem_lt_trans he1 he2]
              · rw [← cmpElem_eq_imp he2, he1]
              · exact Ordering.noConfusion (Option.some.inj h2)
          · have hxy := cmpElem_eq_imp he1
            subst hxy
            rcases he2 : cmpElem x z with - | o2
            · rw [he2] at h2
              exact Option.noConfusion h2
            · rw [he2] at h2
              rcases o2 with - | - | -
              · rfl
              · exact ih h1 h2
              · exact Ordering.noConfusion (Option.some.inj h2)
          · exact Ordering.noConfusion (Option.some.inj h1)

/-- C5 counterexample: the key function is not total on all strings and
sorting can fail. `str.isdigit` is Unicode-aware while the split pattern
`[0-9]` is not: "²" (code point 178, a digit but not decimal) makes
`int()` raise `ValueError` inside the key; "٣" (Arabic-Indic three, code
point 1635, decimal) keys as the bare int `[3]`, which Python cannot
compare with the string key of "b", so `sorted(["٣", "b"], ...)` raises
`TypeError` — both refuting "a total order on all strings (any two keys
are comparable; sorting never fails)". -/
theorem C5_counterexample :
    natural_sort_key [178] = none ∧
    naturalSort [[178]] = none ∧
    natural_sort_key [1635] = some [KeyElem.num 3] ∧
    natural_sort_key [98] = some [KeyElem.str [98]] ∧
    cmpKeyList [KeyElem.num 3] [KeyElem.str [98]] = none ∧
    naturalSort [[1635], [98]] = none := by
  decide

/-- C5 amended: for strings in which every character that Python counts
as a digit is an ASCII `[0-9]` digit, the key is defined and splits the
label into alternating non-digit / digit runs (digit runs compared
numerically, non-digit runs lower-cased); on that fragment any two keys
are comparable (no int-vs-str `TypeError`), and key comparison is a total
order: reflexive, antisymmetric, swap-dual and transitive; sorting
["Set 10", "Set 2", "Set 1"] yields ["Set 1", "Set 2", "Set 10"].
Strings containing non-ASCII digit characters can make the key raise or
produce incomparable keys. -/
theorem C5_natural_sort_key :
    (∀ s : PyStr, asciiDigitsOnly s = true →
      ∃ ks, natural_sort_key s = some ks ∧ altFrom true ks = true) ∧
    (∀ (s t : PyStr) (ks kt : List KeyElem),
      asciiDigitsOnly s = true → asciiDigitsOnly t = true →
      natural_sort_key s = some ks → natural_sort_key t = some kt →
      ∃ o, cmpKeyList ks kt = some o) ∧
    (∀ ks : List KeyElem, cmpKeyList ks ks = some .eq) ∧
    (∀ ks kt : List KeyElem, cmpKeyList ks kt = some .eq → ks = kt) ∧
    (∀ ks kt : List KeyElem,
      cmpKeyList kt ks = (cmpKeyList ks kt).map Ordering.swap) ∧
    (∀ k1 k2 k3 : List KeyElem, cmpKeyList k1 k2 = some .lt →
      cmpKeyList k2 k3 = some .lt → cmpKeyList k1 k3 = some .lt) ∧
    naturalSort [pyN "Set 10", pyN "Set 2", pyN "Set 1"]
      = some [pyN "Set 1", pyN "Set 2", pyN "Set 10"] := by
  refine ⟨?_, ?_, ?_, ?_, ?_, ?_, by decide⟩
  · intro s hs
    exact natural_sort_key_safe hs
  · intro s t ks kt hs ht hks hkt
    obtain ⟨ks', hks', haltS⟩ := natural_sort_key_safe hs
    obtain ⟨kt', hkt', haltT⟩ := natural_sort_key_safe ht
    rw [hks] at hks'
    rw [hkt] at hkt'
    rw [Option.some.inj hks', Option.some.inj hkt']
    exact cmpKeyList_isSome_of_alt ks' true kt' haltS haltT
  · intro ks
    exact cmpKeyList_refl ks
  · intro ks kt h
    exact cmpKeyList_eq_imp h
  · intro ks kt
    exact cmpKeyList_swap ks kt
  · intro k1 k2 k3 h1 h2
    exact cmpKeyList_lt_trans h1 h2

/-- C5 witness: the amended facts at concrete inputs: "Set 10" has a
defined, alternating key; the keys of "Set 2" and "Set 10" are
comparable; and transitivity chains two concrete key comparisons. -/
theorem C5_witness :
    (∃ ks, natural_sort_key (pyN "Set 10") = some ks ∧ altFrom true ks = true) ∧
    (∃ o, cmpKeyList [KeyElem.str (pyN "set "), KeyElem.num 2, KeyElem.str (pyN "")]
      [KeyElem.str (pyN "set "), KeyElem.num 10, KeyElem.str (pyN "")] = some o) ∧
    cmpKeyList [KeyElem.num 1] [KeyElem.num 3] = some .lt :=
  ⟨C5_natural_sort_key.1 (pyN "Set 10") (by decide),
   C5_natural_sort_key.2.1 (pyN "Set 2") (pyN "Set 10")
     [KeyElem.str (pyN "set "), KeyElem.num 2, KeyElem.str (pyN "")]
     [KeyElem.str (pyN "set "), KeyElem.num 10, KeyElem.str (pyN "")]
     (by decide) (by decide) (by decide) (by decide),
   C5_natural_sort_key.2.2.2.2.2.1 [KeyElem.num 1] [KeyElem.num 2] [KeyElem.num 3]
     (by decide) (by decide)⟩

end MechDash
